import Mathlib

/-!
Verification development for the `parental_monitor` capture-to-storage
pipeline (repository `InterviewMate`).  The Python source is shallowly
embedded: pure string and arithmetic logic is translated directly, file
system and console effects are made explicit as event lists over a small
failure oracle, and the Fernet authenticated-encryption primitive from the
`cryptography` dependency is modelled structurally (token layout, padding,
MAC check) with a concrete executable keystream and tag function standing
in for AES128-CBC and HMAC-SHA256.
-/

/-! ## Python numeric dynamics

`screenshot_capture/__init__.py` manipulates the configured interval with
Python arithmetic whose result type depends on the operand types:
`int * int` is an `int`, any operation touching a `float` is a `float`,
and `range(x)` raises `TypeError` unless `x` is an `int`.  Floats are
modelled as rationals (only exact values such as 0.2 * 60 arise in the
claims, so rounding plays no role). -/

inductive PyNum where
  | int (n : Int)
  | float (q : ℚ)
deriving DecidableEq

/-- Numeric value of a Python number (`int` and `float` compare by value). -/
def PyNum.toRat : PyNum → ℚ
  | .int n => (n : ℚ)
  | .float q => q

/-- Python `*`: the result is `float` as soon as one operand is. -/
def pyMul : PyNum → PyNum → PyNum
  | .int a, .int b => .int (a * b)
  | a, b => .float (a.toRat * b.toRat)

/-- Python `//` (floor division): `int // int` is an `int`, otherwise `float`. -/
def pyFloorDiv : PyNum → PyNum → PyNum
  | .int a, .int b => .int (a / b)
  | a, b => .float (⌊a.toRat / b.toRat⌋ : Int)

/-- Python `<=` on numbers compares by numeric value. -/
def pyLe (a b : PyNum) : Bool := a.toRat ≤ b.toRat

/-- Python `range(x)`: succeeds only on an `int` argument; a `float`
argument raises `TypeError` (the list of indices itself is irrelevant to
the scheduler, which only sleeps in the loop body). -/
def pyRange : PyNum → Except String (List Nat)
  | .int n => .ok (List.range n.toNat)
  | .float _ => .error "TypeError"

/-! ## Screenshot scheduler loop

Model of `_screenshot_scheduler_loop` in
`src/parental_monitor/screenshot_capture/__init__.py` (lines 58-100).
Observable effects are recorded as events; `time.sleep` calls are
invisible.  The `stop_event` is never set (the claims concern the steady
state), so the `while` loop is unrolled for a given number of
iterations. -/

inductive SchedEvent where
  | consoleWarn
  | consolePrint
  | errorLogWrite
  | tick
deriving DecidableEq

/-- One iteration of the `while not stop_event.is_set()` body: the wait
phase runs `for _ in range(interval_seconds // wait_chunk)` with
`wait_chunk = 5`; if that raises (caught by the `except` clause) the
iteration prints and writes to the error log, then sleeps 60 s and
continues; otherwise the iteration prints and calls
`take_screenshot_and_log`, recorded as a `tick`. -/
def schedulerIteration (interval_seconds : PyNum) : List SchedEvent :=
  match pyRange (pyFloorDiv interval_seconds (PyNum.int 5)) with
  | .error _ => [SchedEvent.consolePrint, SchedEvent.errorLogWrite]
  | .ok _ => [SchedEvent.consolePrint, SchedEvent.tick]

/-- `_screenshot_scheduler_loop`, unrolled for `iterations` loop passes:
`interval_seconds = interval_minutes * 60`; if `interval_seconds <= 0`
the function prints a warning and returns (the `log_error` call there is
commented out in the source), otherwise it prints the start message and
enters the loop. -/
def screenshotSchedulerLoop (interval_minutes : PyNum) (iterations : Nat) :
    List SchedEvent :=
  let interval_seconds := pyMul interval_minutes (PyNum.int 60)
  if pyLe interval_seconds (PyNum.int 0) then
    [SchedEvent.consoleWarn]
  else
    SchedEvent.consolePrint ::
      (List.replicate iterations (schedulerIteration interval_seconds)).flatten

/-! ## Daily log store

Model of `ensure_daily_log_dir`, `log_keyword`, `save_screenshot` and
`log_error` in `src/parental_monitor/logger.py`.  File-system outcomes are
injected through an oracle with one flag per fallible operation; effects
are recorded as events and a Python-level exception escaping the call is
a `raised` outcome. -/

structure FSOracle where
  mkdirFails : Bool
  writeFails : Bool
  errorLogWriteFails : Bool
deriving DecidableEq

inductive StoreEvent where
  | errorLogAppend
  | consoleFatal
  | consolePrint
  | keywordAppend
  | screenshotWrite
deriving DecidableEq

inductive PyOutcome (α : Type) where
  | ok (a : α)
  | raised (e : String)
deriving DecidableEq

/-- `log_error` (logger.py lines 181-214): appends to the unencrypted
error log; if even that write fails, falls back to a console message. -/
def log_error (o : FSOracle) : List StoreEvent :=
  if o.errorLogWriteFails then [StoreEvent.consoleFatal]
  else [StoreEvent.errorLogAppend]

/-- `ensure_daily_log_dir` (logger.py lines 66-94): creates the daily
directory tree; on failure it reports to the error log and then
re-raises (`raise` on line 92). -/
def ensure_daily_log_dir (o : FSOracle) : List StoreEvent × PyOutcome Unit :=
  if o.mkdirFails then (log_error o, .raised "OSError")
  else ([], .ok ())

/-- `log_keyword` (logger.py lines 102-125): with no cipher it prints and
best-effort error-logs, then returns; otherwise it ensures the daily
directory (whose exception propagates), encrypts, and appends inside a
`try` whose `except` reports to the error log and returns normally. -/
def log_keyword (initialized : Bool) (o : FSOracle) :
    List StoreEvent × PyOutcome Unit :=
  if !initialized then (StoreEvent.consolePrint :: log_error o, .ok ())
  else
    match ensure_daily_log_dir o with
    | (evs, .raised e) => (evs, .raised e)
    | (evs, .ok _) =>
      if o.writeFails then (evs ++ log_error o, .ok ())
      else (evs ++ [StoreEvent.keywordAppend], .ok ())

/-- `save_screenshot` (logger.py lines 128-151): with no cipher it prints,
best-effort error-logs and returns `None`; otherwise it ensures the daily
directory (whose exception propagates), encrypts, and writes the file
inside a `try`: on write failure it reports to the error log and returns
`None`, on success it prints and returns the written path (abstracted to
`some ()`). -/
def save_screenshot (initialized : Bool) (o : FSOracle) :
    List StoreEvent × PyOutcome (Option Unit) :=
  if !initialized then (StoreEvent.consolePrint :: log_error o, .ok none)
  else
    match ensure_daily_log_dir o with
    | (evs, .raised e) => (evs, .raised e)
    | (evs, .ok _) =>
      if o.writeFails then (evs ++ log_error o, .ok none)
      else (evs ++ [StoreEvent.screenshotWrite, StoreEvent.consolePrint],
            .ok (some ()))

/-! ## Encryption-key lifecycle

Model of `load_or_generate_key` (logger.py lines 11-24) and
`generate_key_to_file` (utils.py lines 12-25).  Keys are the raw 32 bytes
obtained after Fernet's url-safe base64 decoding (the transport encoding
is a fixed bijection and is elided); a byte is a `Nat` kept below 256 by
construction or hypothesis.  The key file is `Option (List Nat)` (`none`
when absent), and the mode the written file ends up with is tracked so
the permission clauses of the spec can be stated. -/

inductive FileMode where
  | defaultMode
  | ownerOnly
deriving DecidableEq

/-- Outcome of an encryption-key-store open operation: the key file after
the call, the mode of that file, and the returned value or exception. -/
structure KeyStoreResult where
  keyFile : Option (List Nat)
  keyFileMode : Option FileMode
  parentDirsCreated : Bool
  value : PyOutcome (List Nat)
deriving DecidableEq

/-- The `Fernet(key)` constructor: validates that the key decodes to
exactly 32 bytes and raises `ValueError` otherwise; on success the
cipher is identified with its key bytes. -/
def fernetInit (key : List Nat) : PyOutcome (List Nat) :=
  if key.length = 32 then .ok key else .raised "ValueError"

/-- `load_or_generate_key` (logger.py lines 11-24): if the key file
exists, read its bytes and construct `Fernet` from them (no filesystem
write, no `chmod`); otherwise generate a fresh key (`freshKey` models
`Fernet.generate_key()`), create parent directories, write the key file
(with no `chmod`, hence the process default mode) and construct `Fernet`
from the fresh key. -/
def load_or_generate_key (keyFile : Option (List Nat)) (freshKey : List Nat) :
    KeyStoreResult :=
  match keyFile with
  | some key =>
    { keyFile := some key
      keyFileMode := none
      parentDirsCreated := false
      value := fernetInit key }
  | none =>
    { keyFile := some freshKey
      keyFileMode := some FileMode.defaultMode
      parentDirsCreated := true
      value := fernetInit freshKey }

/-- `generate_key_to_file` (utils.py lines 12-25): generates a fresh key,
creates parent directories, writes the key file, and on POSIX restricts
it to owner read/write with `chmod 0o600` (a `chmod` failure is swallowed
with a console warning, leaving the default mode); returns the key. -/
def generate_key_to_file (posix chmodFails : Bool) (freshKey : List Nat) :
    KeyStoreResult :=
  { keyFile := some freshKey
    keyFileMode := some (if posix && !chmodFails then FileMode.ownerOnly
                         else FileMode.defaultMode)
    parentDirsCreated := true
    value := .ok freshKey }

/-! ## Word filtering

Model of `WindowsKeyCapture.submit_word`
(`src/parental_monitor/keystroke_capture/windows.py` lines 135-158) and
`LinuxKeyCapture.submit_word`
(`src/parental_monitor/keystroke_capture/linux.py` lines 112-130).
Python strings are lists of characters. -/

/-- View a Lean string literal as a Python string (list of characters). -/
def pstr (s : String) : List Char := s.toList

/-- Python `str.strip()`: remove leading and trailing whitespace. -/
def pyStrip (s : List Char) : List Char :=
  ((s.dropWhile Char.isWhitespace).reverse.dropWhile Char.isWhitespace).reverse

/-- Python `str.lower()` at the level the filters use it. -/
def pyLower (s : List Char) : List Char := s.map Char.toLower

/-- Python `needle in hay`: contiguous-substring containment. -/
def containsSub (hay needle : List Char) : Bool :=
  (List.range (hay.length + 1)).any (fun i => needle.isPrefixOf (hay.drop i))

/-- Python `s.replace(".exe", "")`: remove every occurrence of `.exe`,
scanning left to right (on a match the scan resumes after the removed
occurrence). -/
def removeDotExe : List Char → List Char
  | c1 :: c2 :: c3 :: c4 :: rest =>
    if c1 = Char.ofNat 46 ∧ c2 = Char.ofNat 101 ∧ c3 = Char.ofNat 120 ∧
        c4 = Char.ofNat 101 then
      removeDotExe rest
    else
      c1 :: removeDotExe (c2 :: c3 :: c4 :: rest)
  | l => l

/-- `WindowsKeyCapture.submit_word`: trim and lower-case the candidate;
drop it if empty or shorter than 2 characters; drop it if any configured
exclude substring occurs in it; lower-case the active process name and
remove `.exe`; if the include list is non-empty and no include substring
occurs in that name, drop the word; otherwise emit `(appName, word)`
toward the log callback. -/
def windows_submit_word (include_processes exclude_words : List (List Char))
    (word_candidate app_name : List Char) : Option (List Char × List Char) :=
  let w := pyLower (pyStrip word_candidate)
  if w.length < 2 then none
  else if exclude_words.any (fun excluded => containsSub w excluded) then none
  else
    let app_name_lower := removeDotExe (pyLower app_name)
    if include_processes ≠ [] &&
        !(include_processes.any (fun p => containsSub app_name_lower p)) then
      none
    else
      some (app_name, w)

/-- `LinuxKeyCapture.submit_word`: identical to the Windows variant except
that the process name is only lower-cased (no `.exe` removal). -/
def linux_submit_word (include_processes exclude_words : List (List Char))
    (word_candidate app_name : List Char) : Option (List Char × List Char) :=
  let w := pyLower (pyStrip word_candidate)
  if w.length < 2 then none
  else if exclude_words.any (fun excluded => containsSub w excluded) then none
  else
    let app_name_lower := pyLower app_name
    if include_processes ≠ [] &&
        !(include_processes.any (fun p => containsSub app_name_lower p)) then
      none
    else
      some (app_name, w)

/-! ## The Fernet primitive

`encrypt_data` / `decrypt_data` (logger.py) and `encrypt` / `decrypt`
(utils.py) delegate to `cryptography.fernet.Fernet`.  The token layout is
modelled from the Fernet specification used by that library:

  `0x80 || timestamp (8 bytes) || iv (16 bytes) || ciphertext || hmac (32 bytes)`

with the ciphertext being AES128-CBC over the PKCS7-padded payload and
the tag an HMAC-SHA256 over everything before it, keyed by the first half
of the 32-byte key (the second half keys the cipher).  AES and SHA256 are
not re-implemented: the block cipher layer is a concrete invertible keyed
byte stream and the tag a concrete keyed mixing function, both preserving
the properties the store relies on — decryption inverts encryption under
the same key, and decryption succeeds only on structurally well-formed
tokens whose tag matches, so any accepted token is an encryption under
the key in use.  The nondeterministic inputs (timestamp bytes, random iv)
are explicit parameters of encryption.  Payload bytes are naturals kept
below 256 by hypothesis. -/

/-- All entries are genuine byte values. -/
def isBytes (l : List Nat) : Bool := l.all (fun b => decide (b < 256))

/-- PKCS7 pad length for a payload of `n` bytes (block size 16): always
between 1 and 16. -/
def padLen (n : Nat) : Nat := 16 - n % 16

/-- PKCS7 padding: append `padLen` copies of the byte `padLen`. -/
def pad (b : List Nat) : List Nat :=
  b ++ List.replicate (padLen b.length) (padLen b.length)

/-- PKCS7 unpadding: read the final byte `m`, require `1 ≤ m ≤ 16` and the
last `m` bytes to all equal `m`, and strip them; otherwise fail. -/
def unpad (b : List Nat) : Option (List Nat) :=
  match b.getLast? with
  | none => none
  | some m =>
    if 1 ≤ m ∧ m ≤ 16 ∧ m ≤ b.length ∧
        (b.drop (b.length - m)).all (fun x => x == m) then
      some (b.take (b.length - m))
    else none

/-- Concrete keyed mixing fold (the model's stand-in for the SHA256-based
primitives): an FNV-style accumulation of the key, a separator and the
message. -/
def mixNat (key msg : List Nat) : Nat :=
  (key ++ [257] ++ msg).foldl (fun h b => (h * 16777619 + b) % 4294967291) 2166136261

/-- Keystream byte `i` for the cipher keyed by `encKey` and `iv` (the
model's stand-in for the AES128-CBC layer). -/
def ksByte (encKey iv : List Nat) (i : Nat) : Nat :=
  mixNat encKey (iv ++ [i % 256, i / 256 % 256]) % 256

/-- Encrypt a byte list with the keystream, starting at position `i`. -/
def streamEnc (ks : Nat → Nat) : Nat → List Nat → List Nat
  | _, [] => []
  | i, d :: ds => (d + ks i) % 256 :: streamEnc ks (i + 1) ds

/-- Decrypt a byte list with the keystream, starting at position `i`. -/
def streamDec (ks : Nat → Nat) : Nat → List Nat → List Nat
  | _, [] => []
  | i, c :: cs => (c + (256 - ks i % 256)) % 256 :: streamDec ks (i + 1) cs

/-- Model HMAC tag (32 bytes) over `body`, keyed by the signing half. -/
def tagBytes (sigKey body : List Nat) : List Nat :=
  (List.range 32).map (fun i => mixNat sigKey (body ++ [i]) % 256)

/-- `Fernet.encrypt`: build the token body from the version byte, the
timestamp bytes, the iv and the enciphered padded payload, then append
the tag computed over the body with the signing half of the key. -/
def fernetEncrypt (key ts iv p : List Nat) : List Nat :=
  (128 :: (ts ++ iv ++ streamEnc (ksByte (key.drop 16) iv) 0 (pad p))) ++
    tagBytes (key.take 16)
      (128 :: (ts ++ iv ++ streamEnc (ksByte (key.drop 16) iv) 0 (pad p)))

/-- `Fernet.decrypt`: reject tokens too short to contain a version byte,
timestamp, iv, one ciphertext block and a tag; verify the tag over the
body; check the version byte; require the ciphertext length to be a
positive multiple of the block size; decipher and unpad.  Every failure
is the single `InvalidToken` error kind, matching the library. -/
def fernetDecrypt (key tok : List Nat) : Except String (List Nat) :=
  if tok.length < 73 then .error "InvalidToken"
  else if tok.drop (tok.length - 32) ≠
      tagBytes (key.take 16) (tok.take (tok.length - 32)) then .error "InvalidToken"
  else if (tok.take (tok.length - 32)).take 1 ≠ [128] then .error "InvalidToken"
  else if ((tok.take (tok.length - 32)).drop 25).length % 16 ≠ 0 then
    .error "InvalidToken"
  else
    match unpad (streamDec
        (ksByte (key.drop 16) (((tok.take (tok.length - 32)).drop 9).take 16)) 0
        ((tok.take (tok.length - 32)).drop 25)) with
    | none => .error "InvalidToken"
    | some p => .ok p

/-- `encrypt_data` (logger.py lines 96-100): raises `ValueError` when the
cipher was never initialized, otherwise encrypts with it.  The cipher is
its key bytes; timestamp and iv are the call's nondeterminism. -/
def encrypt_data (cipher_suite : Option (List Nat)) (ts iv data_bytes : List Nat) :
    PyOutcome (List Nat) :=
  match cipher_suite with
  | none => .raised "ValueError"
  | some key => .ok (fernetEncrypt key ts iv data_bytes)

/-- `decrypt_data` (logger.py lines 217-220): constructs `Fernet` from the
key bytes (which validates the key length) and decrypts, letting the
`InvalidToken` failure propagate. -/
def decrypt_data (encrypted_data_bytes key_bytes : List Nat) : PyOutcome (List Nat) :=
  match fernetInit key_bytes with
  | .raised e => .raised e
  | .ok key =>
    match fernetDecrypt key encrypted_data_bytes with
    | .error e => .raised e
    | .ok p => .ok p

/-- `decrypt` (utils.py lines 82-90): raises `RuntimeError` when the
global cipher was never initialized; otherwise decrypts with it and
re-raises the `InvalidToken` failure unchanged. -/
def utils_decrypt (cipher : Option (List Nat)) (token_bytes : List Nat) :
    PyOutcome (List Nat) :=
  match cipher with
  | none => .raised "RuntimeError"
  | some key =>
    match fernetDecrypt key token_bytes with
    | .error e => .raised e
    | .ok p => .ok p

/-! ## Supporting lemmas for the Fernet model -/

theorem padLen_pos (n : Nat) : 1 ≤ padLen n := by
  unfold padLen; omega

theorem padLen_le (n : Nat) : padLen n ≤ 16 := by
  unfold padLen; omega

theorem pad_length (b : List Nat) : (pad b).length = b.length + padLen b.length := by
  simp [pad]

theorem pad_length_mod (b : List Nat) : (pad b).length % 16 = 0 := by
  rw [pad_length]; unfold padLen; omega

theorem pad_length_ge (b : List Nat) : 16 ≤ (pad b).length := by
  rw [pad_length]; unfold padLen; omega

theorem pad_mem_lt (b : List Nat) (hb : ∀ x ∈ b, x < 256) :
    ∀ x ∈ pad b, x < 256 := by
  intro x hx
  rw [pad, List.mem_append] at hx
  rcases hx with hx | hx
  · exact hb x hx
  · have := (List.mem_replicate.mp hx).2
    have := padLen_le b.length
    omega

theorem unpad_pad (b : List Nat) : unpad (pad b) = some b := by
  have hm1 : 1 ≤ padLen b.length := padLen_pos _
  have hm16 : padLen b.length ≤ 16 := padLen_le _
  have hlast : (pad b).getLast? = some (padLen b.length) := by
    obtain ⟨k, hk⟩ : ∃ k, padLen b.length = k + 1 := ⟨padLen b.length - 1, by omega⟩
    rw [pad, hk, List.replicate_succ', ← List.append_assoc, List.getLast?_concat, ← hk]
  have hsub : (pad b).length - padLen b.length = b.length := by
    rw [pad_length]; omega
  have hdrop : (pad b).drop ((pad b).length - padLen b.length)
      = List.replicate (padLen b.length) (padLen b.length) := by
    rw [hsub, pad]; exact List.drop_left b _
  have htake : (pad b).take ((pad b).length - padLen b.length) = b := by
    rw [hsub, pad]; exact List.take_left b _
  unfold unpad
  split
  · rename_i heq
    rw [hlast] at heq
    cases heq
  · rename_i m heq
    rw [hlast] at heq
    obtain rfl : m = padLen b.length := (Option.some.inj heq).symm
    rw [if_pos]
    · rw [htake]
    · refine ⟨hm1, hm16, ?_, ?_⟩
      · rw [pad_length]; omega
      · rw [hdrop]
        simp [List.all_eq_true, List.mem_replicate]

theorem unpad_canonical (b p : List Nat) (hlen : b.length % 16 = 0)
    (h : unpad b = some p) : b = pad p := by
  unfold unpad at h
  split at h
  · cases h
  · rename_i m heq
    split at h
    · rename_i hc
      obtain ⟨hm1, hm16, hmlen, hall⟩ := hc
      have h : some (b.take (b.length - m)) = some p := h
      have hp : p = b.take (b.length - m) := (Option.some.inj h).symm
      have hplen : p.length = b.length - m := by
        rw [hp, List.length_take]; omega
      have hpadlen : padLen p.length = m := by
        rw [hplen]; unfold padLen; omega
      have hdrop : b.drop (b.length - m) = List.replicate m m := by
        rw [List.eq_replicate_iff]
        constructor
        · rw [List.length_drop]; omega
        · intro x hx
          have := List.all_eq_true.mp hall x hx
          simpa using this
      calc b = b.take (b.length - m) ++ b.drop (b.length - m) :=
            (List.take_append_drop _ _).symm
        _ = p ++ List.replicate m m := by rw [← hp, hdrop]
        _ = pad p := by rw [pad, hpadlen]
    · cases h

theorem streamEnc_length (ks : Nat → Nat) :
    ∀ (i : Nat) (ds : List Nat), (streamEnc ks i ds).length = ds.length
  | _, [] => rfl
  | i, _ :: ds => by
    simp only [streamEnc, List.length_cons, streamEnc_length ks (i + 1) ds]

theorem streamDec_length (ks : Nat → Nat) :
    ∀ (i : Nat) (cs : List Nat), (streamDec ks i cs).length = cs.length
  | _, [] => rfl
  | i, _ :: cs => by
    simp only [streamDec, List.length_cons, streamDec_length ks (i + 1) cs]

theorem streamDec_streamEnc (ks : Nat → Nat) :
    ∀ (i : Nat) (ds : List Nat), (∀ d ∈ ds, d < 256) →
      streamDec ks i (streamEnc ks i ds) = ds
  | _, [], _ => rfl
  | i, d :: ds, h => by
    have hd : d < 256 := h d (List.mem_cons_self d ds)
    simp only [streamEnc, streamDec, List.cons.injEq]
    exact ⟨by omega,
      streamDec_streamEnc ks (i + 1) ds (fun x hx => h x (List.mem_cons_of_mem _ hx))⟩

theorem streamEnc_streamDec (ks : Nat → Nat) :
    ∀ (i : Nat) (cs : List Nat), (∀ c ∈ cs, c < 256) →
      streamEnc ks i (streamDec ks i cs) = cs
  | _, [], _ => rfl
  | i, c :: cs, h => by
    have hc : c < 256 := h c (List.mem_cons_self c cs)
    simp only [streamDec, streamEnc, List.cons.injEq]
    exact ⟨by omega,
      streamEnc_streamDec ks (i + 1) cs (fun x hx => h x (List.mem_cons_of_mem _ hx))⟩

theorem tagBytes_length (sigKey body : List Nat) : (tagBytes sigKey body).length = 32 := by
  simp [tagBytes]

theorem fernetEncrypt_length (key ts iv p : List Nat) :
    (fernetEncrypt key ts iv p).length = ts.length + iv.length + (pad p).length + 33 := by
  simp [fernetEncrypt, tagBytes_length, streamEnc_length]
  omega

theorem fernetRoundTrip (key ts iv p : List Nat)
    (hts : ts.length = 8) (hiv : iv.length = 16) (hp : ∀ x ∈ p, x < 256) :
    fernetDecrypt key (fernetEncrypt key ts iv p) = .ok p := by
  set ct := streamEnc (ksByte (key.drop 16) iv) 0 (pad p) with hct
  set body := 128 :: (ts ++ iv ++ ct) with hbody
  set tag := tagBytes (key.take 16) body with htag
  have henc : fernetEncrypt key ts iv p = body ++ tag := rfl
  have hctlen : ct.length = (pad p).length := streamEnc_length _ _ _
  have hctmod : ct.length % 16 = 0 := by rw [hctlen]; exact pad_length_mod p
  have hctge : 16 ≤ ct.length := by rw [hctlen]; exact pad_length_ge p
  have hbodylen : body.length = 25 + ct.length := by
    rw [hbody]
    simp [List.length_cons, List.length_append, hts, hiv]
    omega
  have htaglen : tag.length = 32 := tagBytes_length _ _
  have htoklen : (body ++ tag).length = body.length + 32 := by
    rw [List.length_append, htaglen]
  have h73 : ¬ (body ++ tag).length < 73 := by
    rw [htoklen, hbodylen]; omega
  have hsub : (body ++ tag).length - 32 = body.length := by rw [htoklen]; omega
  have htake : (body ++ tag).take ((body ++ tag).length - 32) = body := by
    rw [hsub]; exact List.take_left _ _
  have hdrop : (body ++ tag).drop ((body ++ tag).length - 32) = tag := by
    rw [hsub]; exact List.drop_left _ _
  have hver : body.take 1 = [128] := rfl
  have hdrop9 : body.drop 9 = iv ++ ct := by
    rw [hbody, List.append_assoc]
    show (ts ++ (iv ++ ct)).drop 8 = iv ++ ct
    rw [← hts]
    exact List.drop_left _ _
  have hiv_parse : (body.drop 9).take 16 = iv := by
    rw [hdrop9, ← hiv]; exact List.take_left _ _
  have hct_parse : body.drop 25 = ct := by
    rw [hbody]
    show ((ts ++ iv) ++ ct).drop 24 = ct
    have h24 : (ts ++ iv).length = 24 := by rw [List.length_append, hts, hiv]
    rw [← h24]
    exact List.drop_left _ _
  rw [henc]
  unfold fernetDecrypt
  rw [if_neg h73, htake, hdrop]
  rw [if_neg (not_ne_iff.mpr htag)]
  rw [if_neg (not_ne_iff.mpr hver)]
  rw [hct_parse]
  rw [if_neg (by omega)]
  rw [hiv_parse, hct]
  rw [streamDec_streamEnc _ _ _ (pad_mem_lt p hp), unpad_pad]

theorem fernetDecrypt_error_eq (key tok : List Nat) (e : String)
    (h : fernetDecrypt key tok = .error e) : e = "InvalidToken" := by
  unfold fernetDecrypt at h
  split_ifs at h
  any_goals exact (Except.error.inj h).symm
  split at h
  · exact (Except.error.inj h).symm
  · simp at h

theorem fernetDecrypt_inversion (key tok p : List Nat)
    (htok : ∀ x ∈ tok, x < 256) (h : fernetDecrypt key tok = .ok p) :
    ∃ ts iv, ts.length = 8 ∧ iv.length = 16 ∧ fernetEncrypt key ts iv p = tok := by
  unfold fernetDecrypt at h
  set body := tok.take (tok.length - 32) with hbodydef
  set tg := tok.drop (tok.length - 32) with htgdef
  by_cases h73 : tok.length < 73
  · rw [if_pos h73] at h; simp at h
  rw [if_neg h73] at h
  by_cases htgne : tg ≠ tagBytes (key.take 16) body
  · rw [if_pos htgne] at h; simp at h
  rw [if_neg htgne] at h
  have htag : tg = tagBytes (key.take 16) body := not_ne_iff.mp htgne
  by_cases hvrne : body.take 1 ≠ [128]
  · rw [if_pos hvrne] at h; simp at h
  rw [if_neg hvrne] at h
  have hver : body.take 1 = [128] := not_ne_iff.mp hvrne
  by_cases hctne : (body.drop 25).length % 16 ≠ 0
  · rw [if_pos hctne] at h; simp at h
  rw [if_neg hctne] at h
  have hct16 : (body.drop 25).length % 16 = 0 := not_ne_iff.mp hctne
  set ts := (body.drop 1).take 8 with htsdef
  set iv := (body.drop 9).take 16 with hivdef
  set ct := body.drop 25 with hctdef
  cases hu : unpad (streamDec (ksByte (key.drop 16) iv) 0 ct) with
  | none => rw [hu] at h; simp at h
  | some q =>
    rw [hu] at h
    have hqp : q = p := by simpa using h
    rw [hqp] at hu
    have hlen73 : 73 ≤ tok.length := by omega
    have hbodylen : body.length = tok.length - 32 := by
      rw [hbodydef, List.length_take]; omega
    have htok_split : body ++ tg = tok := by
      rw [hbodydef, htgdef]; exact List.take_append_drop _ _
    have hts : ts.length = 8 := by
      rw [htsdef, List.length_take, List.length_drop]; omega
    have hivlen : iv.length = 16 := by
      rw [hivdef, List.length_take, List.length_drop]; omega
    have h1 : body = [128] ++ body.drop 1 := by
      conv_lhs => rw [← List.take_append_drop 1 body]
      rw [hver]
    have h2 : body.drop 1 = ts ++ body.drop 9 := by
      conv_lhs => rw [← List.take_append_drop 8 (body.drop 1)]
      rw [← htsdef]
      congr 1
      rw [List.drop_drop]
    have h3 : body.drop 9 = iv ++ body.drop 25 := by
      conv_lhs => rw [← List.take_append_drop 16 (body.drop 9)]
      rw [← hivdef]
      congr 1
      rw [List.drop_drop]
    have hbody_decomp : body = 128 :: (ts ++ iv ++ ct) := by
      rw [h1, h2, h3, ← hctdef]
      simp [List.append_assoc]
    have hctbytes : ∀ x ∈ ct, x < 256 := by
      intro x hx
      apply htok
      rw [hctdef] at hx
      exact List.mem_of_mem_take (List.mem_of_mem_drop hx)
    have hdecmod : (streamDec (ksByte (key.drop 16) iv) 0 ct).length % 16 = 0 := by
      rw [streamDec_length]
      rw [hctdef] at hct16 ⊢
      exact hct16
    have hpadp : streamDec (ksByte (key.drop 16) iv) 0 ct = pad p :=
      unpad_canonical _ _ hdecmod hu
    have hctenc : streamEnc (ksByte (key.drop 16) iv) 0 (pad p) = ct := by
      rw [← hpadp]
      exact streamEnc_streamDec _ _ _ hctbytes
    refine ⟨ts, iv, hts, hivlen, ?_⟩
    have hencdef : fernetEncrypt key ts iv p =
        (128 :: (ts ++ iv ++ streamEnc (ksByte (key.drop 16) iv) 0 (pad p))) ++
          tagBytes (key.take 16)
            (128 :: (ts ++ iv ++ streamEnc (ksByte (key.drop 16) iv) 0 (pad p))) := rfl
    rw [hencdef, hctenc, ← hbody_decomp, ← htag]
    exact htok_split

/-! ## Further supporting lemmas -/

theorem count_flatten_replicate (e : SchedEvent) (l : List SchedEvent) :
    ∀ k : Nat, ((List.replicate k l).flatten).count e = k * l.count e
  | 0 => by simp
  | k + 1 => by
    simp [List.replicate_succ, List.count_append, count_flatten_replicate e l k]
    ring

theorem pyMul_toRat (a b : PyNum) : (pyMul a b).toRat = a.toRat * b.toRat := by
  cases a <;> cases b <;> simp [pyMul, PyNum.toRat]

/-! ## Claim theorems -/

/-- C1: the claim states that for every positive configured interval,
including fractional values of `screenshot_interval_minutes`, the
scheduler loop completes each wait-and-tick cycle and invokes the capture
action once per interval without raising an error in the waiting logic.
The code violates this for every non-integer interval: `interval_seconds`
is then a Python `float`, `interval_seconds // wait_chunk` is a `float`,
and `range(float)` raises `TypeError` on every cycle, which the `except`
clause catches and reports to the error log before a 60-second back-off —
so the capture action never fires.  This theorem evaluates the model at
the failing input `screenshot_interval_minutes = 0.2` (the very value the
module's own demo uses): the wait logic raises `TypeError`, and over any
number of loop iterations there are zero capture ticks and one error-log
write per iteration. -/
theorem C1_scheduler_fractional_interval_eval :
    pyRange (pyFloorDiv (pyMul (PyNum.float (1 / 5)) (PyNum.int 60)) (PyNum.int 5))
      = Except.error "TypeError" ∧
    ∀ k : Nat,
      (screenshotSchedulerLoop (PyNum.float (1 / 5)) k).count SchedEvent.tick = 0 ∧
      (screenshotSchedulerLoop (PyNum.float (1 / 5)) k).count SchedEvent.errorLogWrite = k := by
  have hguard : pyLe (pyMul (PyNum.float (1 / 5)) (PyNum.int 60)) (PyNum.int 0) = false := by
    simp [pyLe, pyMul, PyNum.toRat]
  have hiter : schedulerIteration (pyMul (PyNum.float (1 / 5)) (PyNum.int 60)) =
      [SchedEvent.consolePrint, SchedEvent.errorLogWrite] := rfl
  refine ⟨rfl, fun k => ?_⟩
  have hloop : screenshotSchedulerLoop (PyNum.float (1 / 5)) k =
      SchedEvent.consolePrint ::
        (List.replicate k [SchedEvent.consolePrint, SchedEvent.errorLogWrite]).flatten := by
    simp only [screenshotSchedulerLoop, hguard, hiter, Bool.false_eq_true, if_false]
  rw [hloop]
  constructor
  · simp [List.count_cons, count_flatten_replicate]
  · simp [List.count_cons, count_flatten_replicate]

/-- C3 counterexample: the claim says a scheduler configured with
interval ≤ 0 writes a configuration warning to the error log exactly
once, but the `log_error` call in that branch is commented out in the
source — at interval 0 the loop performs zero error-log writes (it only
prints to the console). -/
theorem C3_counterexample_no_error_log_write :
    (screenshotSchedulerLoop (PyNum.int 0) 3).count SchedEvent.errorLogWrite ≠ 1 := by
  have hguard : pyLe (pyMul (PyNum.int 0) (PyNum.int 60)) (PyNum.int 0) = true := by
    simp [pyLe, pyMul, PyNum.toRat]
  have hloop : screenshotSchedulerLoop (PyNum.int 0) 3 = [SchedEvent.consoleWarn] := by
    simp only [screenshotSchedulerLoop, hguard, if_true]
  rw [hloop]
  decide

/-- C3 amended: with a configured interval ≤ 0 the scheduler loop returns
immediately — it never fires a capture tick and does not crash-loop — and
it prints the configuration warning to the console exactly once instead
of writing it to the error log (zero error-log writes). -/
theorem C3_nonpositive_interval_amended (m : PyNum) (k : Nat)
    (hm : m.toRat ≤ 0) :
    screenshotSchedulerLoop m k = [SchedEvent.consoleWarn] ∧
    (screenshotSchedulerLoop m k).count SchedEvent.tick = 0 ∧
    (screenshotSchedulerLoop m k).count SchedEvent.errorLogWrite = 0 ∧
    (screenshotSchedulerLoop m k).count SchedEvent.consoleWarn = 1 := by
  have hle : pyLe (pyMul m (PyNum.int 60)) (PyNum.int 0) = true := by
    simp only [pyLe, decide_eq_true_eq, pyMul_toRat]
    have h60 : (PyNum.int 60).toRat = 60 := by norm_num [PyNum.toRat]
    have h0 : (PyNum.int 0).toRat = 0 := by norm_num [PyNum.toRat]
    rw [h60, h0]
    nlinarith
  have hloop : screenshotSchedulerLoop m k = [SchedEvent.consoleWarn] := by
    simp only [screenshotSchedulerLoop, hle, if_true]
  refine ⟨hloop, ?_, ?_, ?_⟩ <;> rw [hloop] <;> decide

/-- C3 witness: the amended statement instantiated at interval 0 and
three loop iterations. -/
theorem C3_amended_witness :
    screenshotSchedulerLoop (PyNum.int 0) 5 = [SchedEvent.consoleWarn] :=
  (C3_nonpositive_interval_amended (PyNum.int 0) 5 (by simp [PyNum.toRat])).1

/-- C2 counterexample: the claim says that after successful
initialization neither `log_keyword` nor `save_screenshot` ever
propagates an exception; but when creating the daily directory fails,
`ensure_daily_log_dir` logs the failure and then re-raises, and neither
caller catches it — the exception escapes both calls. -/
theorem C2_counterexample_mkdir_failure_raises :
    (log_keyword true (FSOracle.mk true false false)).2 = PyOutcome.raised "OSError" ∧
    (save_screenshot true (FSOracle.mk true false false)).2 = PyOutcome.raised "OSError" := by
  exact ⟨rfl, rfl⟩

/-- C2 amended: after successful initialization, a failure to write the
keyword log or the screenshot file is reported to the error log (with a
console fallback if even that write fails) and the call returns without
an exception; a failure to create the daily directory, however, is
reported to the error log and then re-raised, so it propagates out of
both `log_keyword` and `save_screenshot`. -/
theorem C2_store_failure_reporting_amended (o : FSOracle) :
    (o.mkdirFails = false →
      (log_keyword true o).2 = PyOutcome.ok () ∧
      (save_screenshot true o).2
        = PyOutcome.ok (if o.writeFails then none else some ()) ∧
      (o.writeFails = true →
        (log_keyword true o).1 = log_error o ∧
        (save_screenshot true o).1 = log_error o)) ∧
    (o.mkdirFails = true →
      (log_keyword true o).2 = PyOutcome.raised "OSError" ∧
      (save_screenshot true o).2 = PyOutcome.raised "OSError" ∧
      (log_keyword true o).1 = log_error o) := by
  obtain ⟨a, b, c⟩ := o
  cases a <;> cases b <;> cases c <;> decide

/-- C2 witness: the amended statement instantiated at the oracle where
only the file write fails. -/
theorem C2_amended_witness :
    (log_keyword true (FSOracle.mk false true false)).1
      = log_error (FSOracle.mk false true false) :=
  (((C2_store_failure_reporting_amended (FSOracle.mk false true false)).1 rfl).2.2 rfl).1

/-- C10: `save_screenshot` returns `None` without raising when encryption
is not initialized, and likewise when the write of the encrypted file
fails (after the daily directory was created); it returns the written
path exactly when the encrypted file was actually written.  (A failure to
create the daily directory is a distinct case, covered by C2: there the
call raises.) -/
theorem C10_save_screenshot_result (o : FSOracle) :
    ((save_screenshot false o).2 = PyOutcome.ok none) ∧
    (o.mkdirFails = false → o.writeFails = true →
      (save_screenshot true o).2 = PyOutcome.ok none) ∧
    (o.mkdirFails = false → o.writeFails = false →
      (save_screenshot true o).2 = PyOutcome.ok (some ()) ∧
      StoreEvent.screenshotWrite ∈ (save_screenshot true o).1) ∧
    (∀ u, (save_screenshot true o).2 = PyOutcome.ok (some u) →
      o.writeFails = false ∧ StoreEvent.screenshotWrite ∈ (save_screenshot true o).1) := by
  obtain ⟨a, b, c⟩ := o
  cases a <;> cases b <;> cases c <;> decide

/-- C10 witness: instantiated at the oracle where only the screenshot
file write fails. -/
theorem C10_witness :
    (save_screenshot true (FSOracle.mk false true false)).2 = PyOutcome.ok none :=
  (C10_save_screenshot_result (FSOracle.mk false true false)).2.1 rfl rfl

/-- C4 counterexample: the claim says the first-ever run writes the key
file with owner-only read/write permissions, but `load_or_generate_key` —
the open operation `initialize_logger` actually calls — writes the key
file without any `chmod`, so the file keeps the process default mode. -/
theorem C4_counterexample_key_file_default_mode :
    (load_or_generate_key none (List.replicate 32 0)).keyFileMode
      = some FileMode.defaultMode ∧
    FileMode.defaultMode ≠ FileMode.ownerOnly := by
  decide

/-- C4 amended: on the first-ever run (key file absent),
`load_or_generate_key` generates a fresh random key, creates the parent
directories, writes the key file and returns the key — but leaves the
key file at the process default permissions; owner-only (0o600)
permissions are set only by `utils.generate_key_to_file` on POSIX, a
function that is not on the `initialize_logger` path. -/
theorem C4_first_run_key_generation_amended (freshKey : List Nat)
    (hlen : freshKey.length = 32) :
    (load_or_generate_key none freshKey).keyFile = some freshKey ∧
    (load_or_generate_key none freshKey).parentDirsCreated = true ∧
    (load_or_generate_key none freshKey).value = PyOutcome.ok freshKey ∧
    (load_or_generate_key none freshKey).keyFileMode = some FileMode.defaultMode ∧
    (generate_key_to_file true false freshKey).keyFileMode = some FileMode.ownerOnly ∧
    (generate_key_to_file true false freshKey).value = PyOutcome.ok freshKey := by
  refine ⟨rfl, rfl, ?_, rfl, rfl, rfl⟩
  simp [load_or_generate_key, fernetInit, hlen]

/-- C4 witness: the amended statement instantiated at a concrete fresh
32-byte key. -/
theorem C4_amended_witness :
    (load_or_generate_key none (List.replicate 32 0)).value
      = PyOutcome.ok (List.replicate 32 0) :=
  (C4_first_run_key_generation_amended (List.replicate 32 0) (by decide)).2.2.1

/-- C5 counterexample: the claim says that whenever the key file exists
its bytes are returned unchanged as the key without any validation; but
`load_or_generate_key` returns `Fernet(key)`, whose constructor validates
the key format — with a 3-byte key file the call raises `ValueError` and
returns nothing. -/
theorem C5_counterexample_malformed_key_validated :
    (load_or_generate_key (some [1, 2, 3]) (List.replicate 32 0)).value
      = PyOutcome.raised "ValueError" ∧
    (load_or_generate_key (some [1, 2, 3]) (List.replicate 32 0)).value
      ≠ PyOutcome.ok [1, 2, 3] := by
  decide

/-- C5 amended: when the key file exists, `load_or_generate_key` reads
its bytes and uses them unchanged as the key, performs no filesystem
write, and never regenerates or overwrites the key file; however the key
bytes do pass through the `Fernet` constructor's format validation, so
the call returns the key only when the bytes form a well-formed Fernet
key (32 bytes once decoded) and raises `ValueError` otherwise. -/
theorem C5_existing_key_load_amended (key freshKey : List Nat) :
    (load_or_generate_key (some key) freshKey).keyFile = some key ∧
    (load_or_generate_key (some key) freshKey).keyFileMode = none ∧
    (load_or_generate_key (some key) freshKey).parentDirsCreated = false ∧
    (key.length = 32 →
      (load_or_generate_key (some key) freshKey).value = PyOutcome.ok key) ∧
    (key.length ≠ 32 →
      (load_or_generate_key (some key) freshKey).value
        = PyOutcome.raised "ValueError") := by
  refine ⟨rfl, rfl, rfl, ?_, ?_⟩ <;> intro h <;>
    simp [load_or_generate_key, fernetInit, h]

/-- C5 witness: the amended statement instantiated at a well-formed
32-byte key file. -/
theorem C5_amended_witness :
    (load_or_generate_key (some (List.replicate 32 5)) (List.replicate 32 0)).value
      = PyOutcome.ok (List.replicate 32 5) :=
  (C5_existing_key_load_amended (List.replicate 32 5) (List.replicate 32 0)).2.2.2.1
    (by decide)

theorem windows_submit_word_veto (inc exc : List (List Char)) (word app : List Char)
    (h : exc.any (fun e => containsSub (pyLower (pyStrip word)) e) = true) :
    windows_submit_word inc exc word app = none := by
  simp only [windows_submit_word]
  split_ifs <;> rfl

theorem linux_submit_word_veto (inc exc : List (List Char)) (word app : List Char)
    (h : exc.any (fun e => containsSub (pyLower (pyStrip word)) e) = true) :
    linux_submit_word inc exc word app = none := by
  simp only [linux_submit_word]
  split_ifs <;> rfl

theorem windows_submit_word_eq_some_iff (inc exc : List (List Char))
    (word app : List Char) :
    windows_submit_word inc exc word app = some (app, pyLower (pyStrip word)) ↔
      (2 ≤ (pyLower (pyStrip word)).length ∧
       exc.any (fun e => containsSub (pyLower (pyStrip word)) e) = false ∧
       (inc = [] ∨
        inc.any (fun q => containsSub (removeDotExe (pyLower app)) q) = true)) := by
  simp only [windows_submit_word]
  split_ifs with h1 h2 h3
  · constructor
    · intro h; cases h
    · rintro ⟨hlen, -, -⟩; omega
  · constructor
    · intro h; cases h
    · rintro ⟨-, hexc, -⟩; rw [hexc] at h2; cases h2
  · constructor
    · intro h; cases h
    · rintro ⟨-, -, hinc⟩
      simp only [Bool.and_eq_true, decide_eq_true_eq, Bool.not_eq_true'] at h3
      rcases hinc with rfl | hany
      · exact h3.1 rfl
      · rw [h3.2] at hany; cases hany
  · constructor
    · intro _
      refine ⟨by omega, by simpa using h2, ?_⟩
      by_cases hinc0 : inc = []
      · exact Or.inl hinc0
      · right
        simp only [Bool.and_eq_true, decide_eq_true_eq, Bool.not_eq_true',
          not_and] at h3
        cases hany : inc.any (fun q => containsSub (removeDotExe (pyLower app)) q)
        · exact absurd hany (h3 hinc0)
        · rfl
    · intro _; rfl

theorem linux_submit_word_eq_some_iff (inc exc : List (List Char))
    (word app : List Char) :
    linux_submit_word inc exc word app = some (app, pyLower (pyStrip word)) ↔
      (2 ≤ (pyLower (pyStrip word)).length ∧
       exc.any (fun e => containsSub (pyLower (pyStrip word)) e) = false ∧
       (inc = [] ∨
        inc.any (fun q => containsSub (pyLower app) q) = true)) := by
  simp only [linux_submit_word]
  split_ifs with h1 h2 h3
  · constructor
    · intro h; cases h
    · rintro ⟨hlen, -, -⟩; omega
  · constructor
    · intro h; cases h
    · rintro ⟨-, hexc, -⟩; rw [hexc] at h2; cases h2
  · constructor
    · intro h; cases h
    · rintro ⟨-, -, hinc⟩
      simp only [Bool.and_eq_true, decide_eq_true_eq, Bool.not_eq_true'] at h3
      rcases hinc with rfl | hany
      · exact h3.1 rfl
      · rw [h3.2] at hany; cases hany
  · constructor
    · intro _
      refine ⟨by omega, by simpa using h2, ?_⟩
      by_cases hinc0 : inc = []
      · exact Or.inl hinc0
      · right
        simp only [Bool.and_eq_true, decide_eq_true_eq, Bool.not_eq_true',
          not_and] at h3
        cases hany : inc.any (fun q => containsSub (pyLower app) q)
        · exact absurd hany (h3 hinc0)
        · rfl
    · intro _; rfl

/-- C6 counterexample: the claim says that with a non-empty include set a
word passes the include check whenever the lower-cased active process
name contains a configured substring; but on Windows the code first
removes every occurrence of `.exe` from the lower-cased name, so with
include set `["chrome.exe"]` and active process `chrome.exe` — whose
lower-cased name contains the configured substring — the word is
nevertheless rejected. -/
theorem C6_counterexample_windows_exe_strip :
    containsSub (pyLower (pstr "chrome.exe")) (pstr "chrome.exe") = true ∧
    windows_submit_word [pstr "chrome.exe"] [] (pstr "hello") (pstr "chrome.exe")
      = none := by
  decide

/-- C6 amended: the exclude check always wins — if any configured
exclude-substring occurs (case-insensitively) inside the trimmed
lower-cased word, the word is rejected on both platforms regardless of
the include-process match.  A word is emitted exactly when it is at least
2 characters long after trimming and lower-casing, no exclude-substring
occurs in it, and either the include set is empty or some configured
substring occurs in the processed active process name — which is the
lower-cased name on Linux, and the lower-cased name with every
occurrence of `.exe` removed on Windows. -/
theorem C6_filter_decision_amended (inc exc : List (List Char))
    (word app : List Char) :
    (exc.any (fun e => containsSub (pyLower (pyStrip word)) e) = true →
      windows_submit_word inc exc word app = none ∧
      linux_submit_word inc exc word app = none) ∧
    (windows_submit_word inc exc word app = some (app, pyLower (pyStrip word)) ↔
      (2 ≤ (pyLower (pyStrip word)).length ∧
       exc.any (fun e => containsSub (pyLower (pyStrip word)) e) = false ∧
       (inc = [] ∨
        inc.any (fun q => containsSub (removeDotExe (pyLower app)) q) = true))) ∧
    (linux_submit_word inc exc word app = some (app, pyLower (pyStrip word)) ↔
      (2 ≤ (pyLower (pyStrip word)).length ∧
       exc.any (fun e => containsSub (pyLower (pyStrip word)) e) = false ∧
       (inc = [] ∨
        inc.any (fun q => containsSub (pyLower app) q) = true))) :=
  ⟨fun h => ⟨windows_submit_word_veto inc exc word app h,
             linux_submit_word_veto inc exc word app h⟩,
   windows_submit_word_eq_some_iff inc exc word app,
   linux_submit_word_eq_some_iff inc exc word app⟩

/-- C6 witness: the amended statement instantiated at an excluded word. -/
theorem C6_amended_witness :
    windows_submit_word [] [pstr "se"] (pstr "secret") (pstr "app") = none :=
  ((C6_filter_decision_amended [] [pstr "se"] (pstr "secret") (pstr "app")).1
    (by decide)).1

/-- C7: on both platforms a candidate word is passed on toward logging
only if, after trimming and lower-casing, it is at least 2 characters
long; shorter candidates are silently discarded (`submit_word` simply
returns, producing no log callback and no error). -/
theorem C7_min_word_length (inc exc : List (List Char)) (word app : List Char) :
    ((pyLower (pyStrip word)).length < 2 →
      windows_submit_word inc exc word app = none ∧
      linux_submit_word inc exc word app = none) ∧
    (∀ a w, windows_submit_word inc exc word app = some (a, w) → 2 ≤ w.length) ∧
    (∀ a w, linux_submit_word inc exc word app = some (a, w) → 2 ≤ w.length) := by
  refine ⟨fun hlen => ⟨?_, ?_⟩, ?_, ?_⟩
  · simp only [windows_submit_word]; rw [if_pos hlen]
  · simp only [linux_submit_word]; rw [if_pos hlen]
  · intro a w h
    revert h
    simp only [windows_submit_word]
    split_ifs with h1 h2 h3
    all_goals intro h
    all_goals cases h
    omega
  · intro a w h
    revert h
    simp only [linux_submit_word]
    split_ifs with h1 h2 h3
    all_goals intro h
    all_goals cases h
    omega

/-- C7 witness: a one-character candidate is discarded. -/
theorem C7_witness :
    windows_submit_word [] [] (pstr "a") (pstr "app") = none :=
  ((C7_min_word_length [] [] (pstr "a") (pstr "app")).1 (by decide)).1

/-- C8: round-trip — for every byte payload and valid 32-byte key, a
ciphertext produced by `encrypt_data` under the initialized cipher is
decrypted back to exactly the original payload by `decrypt_data` with the
same key (for every choice of the encryption nondeterminism: timestamp
bytes and random iv). -/
theorem C8_encrypt_decrypt_roundtrip (key ts iv p c : List Nat)
    (hkey : key.length = 32) (hts : ts.length = 8) (hiv : iv.length = 16)
    (hp : isBytes p = true)
    (henc : encrypt_data (some key) ts iv p = PyOutcome.ok c) :
    decrypt_data c key = PyOutcome.ok p := by
  have hc : c = fernetEncrypt key ts iv p :=
    (PyOutcome.ok.inj (henc : PyOutcome.ok (fernetEncrypt key ts iv p)
      = PyOutcome.ok c)).symm
  subst hc
  have hpb : ∀ x ∈ p, x < 256 := by
    intro x hx
    simpa using List.all_eq_true.mp hp x hx
  have hinit : fernetInit key = PyOutcome.ok key := by simp [fernetInit, hkey]
  simp only [decrypt_data, hinit, fernetRoundTrip key ts iv p hts hiv hpb]

/-- C8 witness: the round-trip at a concrete key, timestamp, iv and
two-byte payload. -/
theorem C8_witness :
    decrypt_data
      (fernetEncrypt (List.replicate 32 7) (List.replicate 8 0)
        (List.replicate 16 0) [104, 105])
      (List.replicate 32 7) = PyOutcome.ok [104, 105] :=
  C8_encrypt_decrypt_roundtrip (List.replicate 32 7) (List.replicate 8 0)
    (List.replicate 16 0) [104, 105]
    (fernetEncrypt (List.replicate 32 7) (List.replicate 8 0)
      (List.replicate 16 0) [104, 105])
    (by decide) (by decide) (by decide) (by decide) rfl

/-- C9: any byte string that is not an encryption under the key in use —
which covers wrong-key tokens, truncations and corruptions — makes
`utils.decrypt` fail with the distinguishable `InvalidToken` error kind;
in particular it never returns plaintext bytes.  (The converse inclusion
is `fernetDecrypt_inversion`: whenever decryption accepts, the token is
an encryption under the key.) -/
theorem C9_decrypt_rejects_foreign_ciphertext (key tok : List Nat)
    (htok : isBytes tok = true)
    (hnot : ¬ ∃ ts iv p, ts.length = 8 ∧ iv.length = 16 ∧
        fernetEncrypt key ts iv p = tok) :
    utils_decrypt (some key) tok = PyOutcome.raised "InvalidToken" := by
  have htokb : ∀ x ∈ tok, x < 256 := by
    intro x hx
    simpa using List.all_eq_true.mp htok x hx
  cases hres : fernetDecrypt key tok with
  | ok p =>
    obtain ⟨ts, iv, h8, h16, henc⟩ := fernetDecrypt_inversion key tok p htokb hres
    exact absurd ⟨ts, iv, p, h8, h16, henc⟩ hnot
  | error e =>
    have he : e = "InvalidToken" := fernetDecrypt_error_eq key tok e hres
    simp only [utils_decrypt, hres, he]

/-- C9 witness: the one-byte string `[0]` is shorter than any Fernet
token, hence is not an encryption under the key, and decryption rejects
it with `InvalidToken`. -/
theorem C9_witness :
    utils_decrypt (some (List.replicate 32 7)) [0]
      = PyOutcome.raised "InvalidToken" :=
  C9_decrypt_rejects_foreign_ciphertext (List.replicate 32 7) [0] (by decide)
    (by
      rintro ⟨ts, iv, p, h8, h16, henc⟩
      have hlen := fernetEncrypt_length (List.replicate 32 7) ts iv p
      rw [henc] at hlen
      have hpl := pad_length_ge p
      simp only [List.length_cons, List.length_nil, h8, h16] at hlen
      omega)
